import Mathlib

/-!
Shallow embedding of the `stringleton` interning registry
(`src/stringleton-registry/{registry.rs, symbol.rs, site.rs}`).

Modelling conventions:
* A Rust `&'static &'static str` is modelled as a `Symbol` record holding the
  numeric address of the outer reference cell (`addr`) together with the text
  it ultimately refers to (`text`).  `Symbol` in the source wraps exactly such
  a double reference, and so does the registry-internal key type `SymbolStr`,
  so one record type models both.
* The heap allocator is made explicit: `Store.nextAddr` is the next fresh heap
  address; `Box::leak` in `SymbolStr::from(&str)` yields address `nextAddr`
  and bumps the counter.  Static reference cells handed to
  `get_or_insert_static` live below `heapBase` and are caller supplied.
* The two hashbrown maps become association lists: `by_string` is the key set
  of `HashMap<SymbolStr, ()>` (keyed by text content, via `Borrow<str>` and
  the content-comparing `PartialEq`/`Hash` of `SymbolStr`), and `by_pointer`
  models `HashMap<usize, SymbolStr>` with replace-on-insert semantics.
* Machine-integer casts are explicit: `get_by_address` truncates its `u64`
  argument to pointer width `W` with `% 2 ^ W`, mirroring `address as usize`.
-/

namespace Stringleton

/-- Model of a Rust `&'static &'static str`: the address of the outer
reference cell plus the text it refers to.  This is the representation of both
`Symbol` (symbol.rs line 49) and the registry key `SymbolStr`
(registry.rs line 26). -/
structure Symbol where
  addr : Nat
  text : String
  deriving DecidableEq

/-- Registry-internal key type; same representation as `Symbol`. -/
abbrev SymbolStr := Symbol

/-- Pointer projection `Symbol::as_ptr` (symbol.rs): the address of the outer
reference cell, the basis of equality, hashing and ordering. -/
def Symbol.as_ptr (x : Symbol) : Nat := x.addr

/-- String projection `Symbol::as_str` (symbol.rs). -/
def Symbol.as_str (x : Symbol) : String := x.text

/-- Implementation of `PartialEq for Symbol` (symbol.rs lines 220-225):
`self.as_ptr() == other.as_ptr()`. -/
def Symbol.beq (a b : Symbol) : Bool := a.as_ptr == b.as_ptr

/-- Implementation of `Ord for Symbol` (symbol.rs lines 264-269):
`self.as_ptr().cmp(&other.as_ptr())`. -/
def Symbol.cmp (a b : Symbol) : Ordering := compare a.as_ptr b.as_ptr

/-- Implementation of `Hash for Symbol` (symbol.rs lines 299-303): the data
fed to the hasher is the pointer value `as_ptr`. -/
def Symbol.hashFeed (x : Symbol) : Nat := x.as_ptr

/-- Implementation of `PartialEq<str> for Symbol` (symbol.rs lines 229-234):
`*self.as_str() == *other`, a content comparison. -/
def Symbol.beqStr (x : Symbol) (other : String) : Bool := x.as_str == other

/-- Implementation of `PartialOrd<str> for Symbol` (symbol.rs lines 271-276):
`Some(self.as_str().cmp(other))`, a lexicographic content comparison. -/
def Symbol.cmpStr (x : Symbol) (other : String) : Ordering :=
  compare x.as_str other

/-- Projection `Symbol::to_ffi` (symbol.rs lines 170-175):
`self.as_ptr().as_ptr() as usize as u64`.  Addresses are `usize` values, so
the cast to `u64` is lossless and the result is just the address. -/
def Symbol.to_ffi (x : Symbol) : Nat := x.as_ptr

/-- Content lookup in the `by_string` key list: `HashMap::get_key_value` /
`entry_ref` keyed by text content (via `Borrow<str> for SymbolStr`).
Returns the stored key. -/
def findByString (l : List SymbolStr) (s : String) : Option SymbolStr :=
  l.find? (fun e => e.text == s)

/-- Address lookup in the `by_pointer` association list:
`HashMap::<usize, SymbolStr>::get`. -/
def findByPointer (l : List (Nat × SymbolStr)) (a : Nat) : Option SymbolStr :=
  (l.find? (fun p => p.1 == a)).map Prod.snd

/-- Key-replacing insertion, the semantics of
`HashMap::<usize, SymbolStr>::insert`. -/
def mapInsert (l : List (Nat × SymbolStr)) (k : Nat) (v : SymbolStr) :
    List (Nat × SymbolStr) :=
  l.eraseP (fun p => p.1 == k) ++ [(k, v)]

/-- The registry's internal data structure `Store` (registry.rs lines 65-69),
together with the explicit allocator counter `nextAddr` (the next fresh heap
address `Box::leak` would return). -/
structure Store where
  by_string : List SymbolStr
  by_pointer : List (Nat × SymbolStr)
  nextAddr : Nat
  deriving DecidableEq

/-- Fresh store.  `heapBase` is the lowest heap address; every
statically-allocated reference cell lives strictly below it. -/
def Store.empty (heapBase : Nat) : Store := ⟨[], [], heapBase⟩

/-- Implementation of `Store::get` (registry.rs lines 259-266): look up the
text in `by_string` and wrap the stored key in a `Symbol`
(`Symbol::new_unchecked(symstr.0)`). -/
def Store.get (st : Store) (s : String) : Option Symbol :=
  findByString st.by_string s

/-- Implementation of `Store::get_or_insert` (registry.rs lines 218-235).
On a vacant entry, `SymbolStr::from(string)` copies the text to a fresh
leaked heap cell (address `nextAddr`), inserts the key into `by_string` and
the address mapping into `by_pointer`; either way the stored key is returned
as a `Symbol`. -/
def Store.get_or_insert (st : Store) (s : String) : Store × Symbol :=
  match findByString st.by_string s with
  | some e => (st, e)
  | none =>
    let interned : SymbolStr := ⟨st.nextAddr, s⟩
    (⟨st.by_string ++ [interned],
      mapInsert st.by_pointer interned.addr interned,
      st.nextAddr + 1⟩,
     interned)

/-- Implementation of `Store::get_or_insert_static` (registry.rs lines
239-257).  The caller's static reference cell `r` is used directly as the key
on a vacant entry (no allocation: `nextAddr` is untouched); on an occupied
entry the original stored key is returned (`*entry.key()`). -/
def Store.get_or_insert_static (st : Store) (r : SymbolStr) : Store × Symbol :=
  match findByString st.by_string r.text with
  | some e => (st, e)
  | none =>
    (⟨st.by_string ++ [r],
      mapInsert st.by_pointer r.addr r,
      st.nextAddr⟩,
     r)

/-- Implementation of `Store::get_by_address` (registry.rs lines 268-276):
the `u64` argument is cast to `usize` (`address as usize`, truncating to the
pointer width `W`) before the `by_pointer` lookup. -/
def Store.get_by_address (W : Nat) (st : Store) (address : Nat) :
    Option Symbol :=
  findByPointer st.by_pointer (address % 2 ^ W)

/-- Implementation of `Symbol::try_from_ffi` (symbol.rs lines 199-203):
`Registry::global().get_by_address(value)`, i.e. a validated lookup in the
`by_pointer` index of the (here explicitly passed) store. -/
def Symbol.try_from_ffi (W : Nat) (st : Store) (value : Nat) : Option Symbol :=
  Store.get_by_address W st value

/-- Sequential operations on the store, as issued through the registry. -/
inductive Op where
  | getOrInsert (s : String)
  | getOrInsertStatic (r : SymbolStr)
  | get (s : String)
  | getByAddress (a : Nat)
  deriving DecidableEq

/-- Run one operation under the lock, returning the new store and the
operation's result (interning operations always return a symbol). -/
def applyOp (W : Nat) (st : Store) : Op → Store × Option Symbol
  | .getOrInsert s =>
    let p := st.get_or_insert s
    (p.1, some p.2)
  | .getOrInsertStatic r =>
    let p := st.get_or_insert_static r
    (p.1, some p.2)
  | .get s => (st, st.get s)
  | .getByAddress a => (st, st.get_by_address W a)

/-- Run a sequence of operations, collecting every result. -/
def runOps (W : Nat) (st : Store) : List Op → Store × List (Option Symbol)
  | [] => (st, [])
  | op :: rest =>
    let p := applyOp W st op
    let q := runOps W p.1 rest
    (q.1, p.2 :: q.2)

/-! ### Lock model (registry.rs lines 102-130) -/

/-- Model of `std::sync::PoisonError<Guard>`: the error value still carries
the guard, retrievable with `into_inner`. -/
structure PoisonError (α : Type) where
  inner : α

/-- Acquiring an `RwLock` (read or write side): on a healthy lock the guard is
returned as `Ok`; on a lock poisoned by a panic in another critical section
the same guard is returned inside the `Err(PoisonError)`. -/
def lockAcquire (poisoned : Bool) (st : Store) : Except (PoisonError Store) Store :=
  if poisoned then .error ⟨st⟩ else .ok st

/-- Implementation of `Registry::read` (registry.rs lines 102-113):
`self.store.read().unwrap_or_else(PoisonError::into_inner)`. -/
def Registry.read (poisoned : Bool) (st : Store) : Store :=
  match lockAcquire poisoned st with
  | .ok guard => guard
  | .error e => e.inner

/-- Implementation of `Registry::write` (registry.rs lines 119-130):
`self.store.write().unwrap_or_else(PoisonError::into_inner)`. -/
def Registry.write (poisoned : Bool) (st : Store) : Store :=
  match lockAcquire poisoned st with
  | .ok guard => guard
  | .error e => e.inner

/-! ### Registry-level interning (registry.rs lines 166-203)

`Registry::get_or_insert` reads under the read lock, returns early on a hit,
drops the read lock, then re-checks under the write lock.  Between dropping
the read lock and acquiring the write lock other threads may mutate the
store; `between` models that interference window. -/

/-- Implementation of `Registry::get_or_insert` (registry.rs lines 166-176)
with the window between the read and write locks made explicit as `between`. -/
def Registry.get_or_insert_with (between : Store → Store) (st : Store)
    (s : String) : Store × Symbol :=
  match Store.get st s with
  | some previously_interned => (st, previously_interned)
  | none => Store.get_or_insert (between st) s

/-- Uninterfered sequential `Registry::get_or_insert`. -/
def Registry.get_or_insert (st : Store) (s : String) : Store × Symbol :=
  Registry.get_or_insert_with id st s

/-- Implementation of `Registry::get_or_insert_static` (registry.rs lines
192-203), with the same explicit interference window. -/
def Registry.get_or_insert_static_with (between : Store → Store) (st : Store)
    (r : SymbolStr) : Store × Symbol :=
  match Store.get st r.text with
  | some previously_interned => (st, previously_interned)
  | none => Store.get_or_insert_static (between st) r

/-! ### Sites and the startup protocol (site.rs, registry.rs lines 316-327) -/

/-- Model of `Site` (site.rs lines 13-26): the `inner` cell holds the
not-yet-interned string reference before registration and the resolved
symbol's inner reference afterwards; `initialized` is the optional
verification flag. -/
structure Site where
  inner : Symbol
  initialized : Bool
  deriving DecidableEq

/-- Constructor `Site::new` (site.rs lines 39-45). -/
def Site.new (string : Symbol) : Site := ⟨string, false⟩

/-- Reader `Site::get_string` (site.rs lines 52-57): the current cell
content. -/
def Site.get_string (site : Site) : Symbol := site.inner

/-- Implementation of `Site::initialize` (site.rs lines 66-75): set the
`initialized` flag and overwrite the cell with the interned symbol. -/
def Site.initSite (site : Site) (interned : Symbol) : Site := ⟨interned, true⟩

/-- Implementation of `RegistryWriteGuard::register_sites` (registry.rs lines
317-327): for each site in order, read its current string, intern it via
`Store::get_or_insert_static`, and overwrite the site in place.  Mutation of
the site list is modelled by returning the updated list. -/
def registerSites (st : Store) : List Site → Store × List Site
  | [] => (st, [])
  | site :: rest =>
    let p := Store.get_or_insert_static st site.get_string
    let q := registerSites p.1 rest
    (q.1, site.initSite p.2 :: q.2)

/-! ### Concurrent interning of one text (C9)

Every critical section of `Registry::get_or_insert` /
`get_or_insert_static` holds the single process-wide `RwLock`, so a
concurrent execution of N threads all interning text `s` is an interleaving
of serialized lock-protected phases.  A thread first runs its read phase
(`Store::get` under the read lock); if that hits, the hit is the thread's
result; otherwise the thread later runs its write phase (the re-checking
`Store::get_or_insert`/`_static` under the write lock), whose result is the
thread's result. -/

/-- One serialized lock-protected phase of some thread interning `s`. -/
inductive Ev where
  | readPhase
  | writeDyn
  | writeStatic (r : SymbolStr)
  deriving DecidableEq

/-- Run one phase: the read phase merely looks up; the write phases re-check
and insert (`Store::get_or_insert` / `Store::get_or_insert_static`). -/
def runEv (st : Store) (s : String) : Ev → Store × Option Symbol
  | .readPhase => (st, Store.get st s)
  | .writeDyn =>
    let p := st.get_or_insert s
    (p.1, some p.2)
  | .writeStatic r =>
    let p := st.get_or_insert_static r
    (p.1, some p.2)

/-- Run an interleaving of phases, collecting every phase's result. -/
def runEvs (st : Store) (s : String) : List Ev → Store × List (Option Symbol)
  | [] => (st, [])
  | ev :: rest =>
    let p := runEv st s ev
    let q := runEvs p.1 s rest
    (q.1, p.2 :: q.2)

/-! ### Address discipline and the store invariant (C4) -/

/-- Environment describing the statically allocated reference cells: all of
them live below `heapBase` (the heap allocator only hands out addresses at or
above `heapBase`), and two static cells at the same address are the same cell
(so they carry the same text). -/
structure StaticEnv where
  heapBase : Nat
  refs : List SymbolStr

/-- Well-formedness of a static environment. -/
abbrev StaticEnv.OK (E : StaticEnv) : Prop :=
  (∀ r ∈ E.refs, r.addr < E.heapBase) ∧
    (∀ r1 ∈ E.refs, ∀ r2 ∈ E.refs, r1.addr = r2.addr → r1.text = r2.text)

/-- An operation is admissible when every static reference it passes in is a
genuine static cell of the environment. -/
def OpOK (E : StaticEnv) : Op → Prop
  | .getOrInsertStatic r => r ∈ E.refs
  | _ => True

instance (E : StaticEnv) : ∀ op : Op, Decidable (OpOK E op)
  | .getOrInsert _ => .isTrue trivial
  | .getOrInsertStatic r => inferInstanceAs (Decidable (r ∈ E.refs))
  | .get _ => .isTrue trivial
  | .getByAddress _ => .isTrue trivial

/-- Internal consistency of the store: the two indexes agree pointwise, no
text and no address occurs twice, every stored address was drawn either from
the heap allocator (and is below `nextAddr`) or from a static cell of the
environment, and the allocator never returns an address already in use. -/
abbrev Store.Inv (E : StaticEnv) (st : Store) : Prop :=
  st.by_pointer = st.by_string.map (fun e => (e.addr, e)) ∧
    (st.by_string.map Symbol.text).Nodup ∧
    (st.by_string.map Symbol.addr).Nodup ∧
    E.heapBase ≤ st.nextAddr ∧
    (∀ e ∈ st.by_string, e.addr < st.nextAddr) ∧
    (∀ e ∈ st.by_string, e.addr < E.heapBase → e ∈ E.refs)

/-! ### Helper lemmas about lookups and insertion -/

theorem findByString_append_some {l1 : List SymbolStr} (l2 : List SymbolStr)
    {s : String} {e : SymbolStr} (h : findByString l1 s = some e) :
    findByString (l1 ++ l2) s = some e := by
  unfold findByString at h ⊢
  rw [List.find?_append, h]
  rfl

theorem findByString_append_none {l1 : List SymbolStr} (l2 : List SymbolStr)
    {s : String} (h : findByString l1 s = none) :
    findByString (l1 ++ l2) s = findByString l2 s := by
  unfold findByString at h ⊢
  rw [List.find?_append, h]
  rfl

theorem findByString_singleton_self (r : SymbolStr) :
    findByString [r] r.text = some r := by
  unfold findByString
  rw [List.find?_cons_of_pos _ (by simp)]

theorem get_or_insert_found {st : Store} {s : String} {e : SymbolStr}
    (h : findByString st.by_string s = some e) :
    st.get_or_insert s = (st, e) := by
  unfold Store.get_or_insert
  rw [h]

theorem get_or_insert_vacant {st : Store} {s : String}
    (h : findByString st.by_string s = none) :
    st.get_or_insert s =
      (⟨st.by_string ++ [⟨st.nextAddr, s⟩],
        mapInsert st.by_pointer st.nextAddr ⟨st.nextAddr, s⟩,
        st.nextAddr + 1⟩, ⟨st.nextAddr, s⟩) := by
  unfold Store.get_or_insert
  rw [h]

theorem gois_found {st : Store} {r : SymbolStr} {e : SymbolStr}
    (h : findByString st.by_string r.text = some e) :
    st.get_or_insert_static r = (st, e) := by
  unfold Store.get_or_insert_static
  rw [h]

theorem gois_vacant {st : Store} {r : SymbolStr}
    (h : findByString st.by_string r.text = none) :
    st.get_or_insert_static r =
      (⟨st.by_string ++ [r], mapInsert st.by_pointer r.addr r,
        st.nextAddr⟩, r) := by
  unfold Store.get_or_insert_static
  rw [h]

theorem get_or_insert_binds (st : Store) (s : String) :
    findByString (st.get_or_insert s).1.by_string s
      = some (st.get_or_insert s).2 := by
  cases h : findByString st.by_string s with
  | some e => rw [get_or_insert_found h]; exact h
  | none =>
    rw [get_or_insert_vacant h]
    rw [findByString_append_none _ h]
    exact findByString_singleton_self ⟨st.nextAddr, s⟩

theorem gois_binds (st : Store) (r : SymbolStr) :
    findByString (st.get_or_insert_static r).1.by_string r.text
      = some (st.get_or_insert_static r).2 := by
  cases h : findByString st.by_string r.text with
  | some e => rw [gois_found h]; exact h
  | none =>
    rw [gois_vacant h]
    rw [findByString_append_none _ h]
    exact findByString_singleton_self r

theorem get_or_insert_text (st : Store) (s : String) :
    (st.get_or_insert s).2.text = s := by
  cases h : findByString st.by_string s with
  | some e =>
    rw [get_or_insert_found h]
    simpa using List.find?_some h
  | none => rw [get_or_insert_vacant h]

theorem gois_text (st : Store) (r : SymbolStr) :
    (st.get_or_insert_static r).2.text = r.text := by
  cases h : findByString st.by_string r.text with
  | some e =>
    rw [gois_found h]
    simpa using List.find?_some h
  | none => rw [gois_vacant h]

theorem get_or_insert_mem (st : Store) (s : String) :
    (st.get_or_insert s).2 ∈ (st.get_or_insert s).1.by_string :=
  List.mem_of_find?_eq_some (get_or_insert_binds st s)

theorem get_or_insert_stable {st : Store} {s : String} {e : SymbolStr}
    (t : String) (h : findByString st.by_string s = some e) :
    findByString (st.get_or_insert t).1.by_string s = some e := by
  cases ht : findByString st.by_string t with
  | some f => rw [get_or_insert_found ht]; exact h
  | none => rw [get_or_insert_vacant ht]; exact findByString_append_some _ h

theorem gois_stable {st : Store} {s : String} {e : SymbolStr}
    (r : SymbolStr) (h : findByString st.by_string s = some e) :
    findByString (st.get_or_insert_static r).1.by_string s = some e := by
  cases ht : findByString st.by_string r.text with
  | some f => rw [gois_found ht]; exact h
  | none => rw [gois_vacant ht]; exact findByString_append_some _ h

theorem applyOp_stable {W : Nat} {st : Store} {s : String} {e : SymbolStr}
    (op : Op) (h : findByString st.by_string s = some e) :
    findByString (applyOp W st op).1.by_string s = some e := by
  cases op with
  | getOrInsert t => exact get_or_insert_stable t h
  | getOrInsertStatic r => exact gois_stable r h
  | get t => exact h
  | getByAddress a => exact h

theorem runOps_stable {W : Nat} {s : String} {e : SymbolStr}
    (ops : List Op) : ∀ {st : Store},
    findByString st.by_string s = some e →
    findByString (runOps W st ops).1.by_string s = some e := by
  induction ops with
  | nil => intro st h; exact h
  | cons op rest ih =>
    intro st h
    exact ih (applyOp_stable op h)

/-! ### Preservation of the store invariant -/

theorem Inv_empty (E : StaticEnv) : Store.Inv E (Store.empty E.heapBase) := by
  refine ⟨rfl, List.nodup_nil, List.nodup_nil, Nat.le_refl _, ?_, ?_⟩ <;>
    intro e he <;> cases he

theorem Inv_insert {E : StaticEnv} {st : Store} (hI : Store.Inv E st)
    {r : SymbolStr} {newNext : Nat}
    (hfind : findByString st.by_string r.text = none)
    (hfresh : ∀ e ∈ st.by_string, e.addr ≠ r.addr)
    (hnext : st.nextAddr ≤ newNext)
    (hrb : r.addr < newNext)
    (hbase2 : E.heapBase ≤ newNext)
    (hsr : r.addr < E.heapBase → r ∈ E.refs) :
    Store.Inv E
      ⟨st.by_string ++ [r], mapInsert st.by_pointer r.addr r, newNext⟩ := by
  obtain ⟨hagree, htext, haddr, hbase, hbound, hstat⟩ := hI
  have hnone := List.find?_eq_none.mp (by exact hfind)
  have hkeys : ∀ p ∈ st.by_pointer, ¬(p.1 == r.addr) = true := by
    intro p hp
    rw [hagree] at hp
    simp only [List.mem_map] at hp
    obtain ⟨e, he, rfl⟩ := hp
    simp [hfresh e he]
  refine ⟨?_, ?_, ?_, hbase2, ?_, ?_⟩
  · show mapInsert st.by_pointer r.addr r = _
    rw [mapInsert, List.eraseP_of_forall_not hkeys, hagree, List.map_append]
    rfl
  · show ((st.by_string ++ [r]).map Symbol.text).Nodup
    rw [List.map_append, List.nodup_append]
    refine ⟨htext, by simp, ?_⟩
    intro t ht hmem
    simp only [List.map_cons, List.map_nil, List.mem_singleton] at hmem
    subst hmem
    simp only [List.mem_map] at ht
    obtain ⟨e, he, hte⟩ := ht
    have he2 := hnone e he
    simp [hte] at he2
  · show ((st.by_string ++ [r]).map Symbol.addr).Nodup
    rw [List.map_append, List.nodup_append]
    refine ⟨haddr, by simp, ?_⟩
    intro a ha hmem
    simp only [List.map_cons, List.map_nil, List.mem_singleton] at hmem
    subst hmem
    simp only [List.mem_map] at ha
    obtain ⟨e, he, hae⟩ := ha
    exact hfresh e he hae
  · intro e he
    rcases List.mem_append.mp he with he1 | he2
    · exact Nat.lt_of_lt_of_le (hbound e he1) hnext
    · rw [List.mem_singleton.mp he2]
      exact hrb
  · intro e he
    rcases List.mem_append.mp he with he1 | he2
    · exact hstat e he1
    · rw [List.mem_singleton.mp he2]
      exact hsr

theorem Inv_get_or_insert {E : StaticEnv} {st : Store}
    (hI : Store.Inv E st) (s : String) :
    Store.Inv E (st.get_or_insert s).1 := by
  cases h : findByString st.by_string s with
  | some e => rw [get_or_insert_found h]; exact hI
  | none =>
    rw [get_or_insert_vacant h]
    exact Inv_insert hI h
      (fun e he => Nat.ne_of_lt (hI.2.2.2.2.1 e he))
      (Nat.le_succ _) (Nat.lt_succ_self _)
      (Nat.le_trans hI.2.2.2.1 (Nat.le_succ _))
      (fun hlt => absurd hI.2.2.2.1 (Nat.not_le.mpr hlt))

theorem Inv_gois {E : StaticEnv} (hE : E.OK) {st : Store}
    (hI : Store.Inv E st) {r : SymbolStr} (hr : r ∈ E.refs) :
    Store.Inv E (st.get_or_insert_static r).1 := by
  cases h : findByString st.by_string r.text with
  | some e => rw [gois_found h]; exact hI
  | none =>
    rw [gois_vacant h]
    have hnone := List.find?_eq_none.mp (by exact h)
    refine Inv_insert hI h ?_ (Nat.le_refl _)
      (Nat.lt_of_lt_of_le (hE.1 r hr) hI.2.2.2.1)
      hI.2.2.2.1 (fun _ => hr)
    intro e he heq
    by_cases hlt : e.addr < E.heapBase
    · have her := hI.2.2.2.2.2 e he hlt
      have hte := hE.2 e her r hr heq
      have := hnone e he
      simp [hte] at this
    · exact hlt (heq ▸ hE.1 r hr)

theorem Inv_applyOp {E : StaticEnv} (hE : E.OK) {W : Nat} {st : Store}
    (hI : Store.Inv E st) {op : Op} (hop : OpOK E op) :
    Store.Inv E (applyOp W st op).1 := by
  cases op with
  | getOrInsert s => exact Inv_get_or_insert hI s
  | getOrInsertStatic r => exact Inv_gois hE hI hop
  | get s => exact hI
  | getByAddress a => exact hI

theorem Inv_runOps {E : StaticEnv} (hE : E.OK) {W : Nat} (ops : List Op) :
    ∀ {st : Store}, Store.Inv E st → (∀ op ∈ ops, OpOK E op) →
    Store.Inv E (runOps W st ops).1 := by
  induction ops with
  | nil => intro st h _; exact h
  | cons op rest ih =>
    intro st h hops
    exact ih (Inv_applyOp hE h (hops op (List.mem_cons_self op rest)))
      (fun o ho => hops o (List.mem_cons_of_mem op ho))

/-! ### Lookup by address in a consistent pointer index -/

theorem findByPointer_map_mem {l : List SymbolStr}
    (haddr : (l.map Symbol.addr).Nodup) {x : SymbolStr} (hx : x ∈ l) :
    findByPointer (l.map fun e => (e.addr, e)) x.addr = some x := by
  induction l with
  | nil => cases hx
  | cons a t ih =>
    simp only [List.map_cons, List.nodup_cons] at haddr
    obtain ⟨hna, hnd⟩ := haddr
    rcases List.mem_cons.mp hx with rfl | hx2
    · unfold findByPointer
      rw [List.map_cons, List.find?_cons_of_pos _ (by simp)]
      rfl
    · unfold findByPointer
      rw [List.map_cons, List.find?_cons_of_neg]
      · exact ih hnd hx2
      · intro hc
        simp only [beq_iff_eq] at hc
        exact hna (by rw [hc]; exact List.mem_map_of_mem Symbol.addr hx2)

theorem findByPointer_map_none {l : List SymbolStr} {v : Nat}
    (h : ∀ e ∈ l, e.addr ≠ v) :
    findByPointer (l.map fun e => (e.addr, e)) v = none := by
  unfold findByPointer
  rw [List.find?_eq_none.mpr ?_]
  · rfl
  · intro p hp
    simp only [List.mem_map] at hp
    obtain ⟨e, he, rfl⟩ := hp
    simp [h e he]

/-! ### The startup registration pass -/

theorem registerSites_cons (st : Store) (site : Site) (rest : List Site) :
    registerSites st (site :: rest)
      = ((registerSites (st.get_or_insert_static site.get_string).1 rest).1,
         site.initSite (st.get_or_insert_static site.get_string).2
           :: (registerSites (st.get_or_insert_static site.get_string).1
                rest).2) := rfl

theorem registerSites_stable (sites : List Site) : ∀ {st : Store} {s : String}
    {e : SymbolStr}, findByString st.by_string s = some e →
    findByString (registerSites st sites).1.by_string s = some e := by
  induction sites with
  | nil => intro st s e h; exact h
  | cons site rest ih =>
    intro st s e h
    rw [registerSites_cons]
    exact ih (gois_stable site.get_string h)

theorem registerSites_resolved (sites : List Site) : ∀ {st : Store},
    ∀ site2 ∈ (registerSites st sites).2,
      findByString (registerSites st sites).1.by_string site2.inner.text
          = some site2.inner
        ∧ site2.initialized = true := by
  induction sites with
  | nil => intro st site2 h; cases h
  | cons site rest ih =>
    intro st site2 hmem
    rw [registerSites_cons] at hmem ⊢
    rcases List.mem_cons.mp hmem with rfl | hmem2
    · refine ⟨?_, rfl⟩
      show findByString
          (registerSites (st.get_or_insert_static site.get_string).1
            rest).1.by_string
          (st.get_or_insert_static site.get_string).2.text
        = some (st.get_or_insert_static site.get_string).2
      rw [gois_text st site.get_string]
      exact registerSites_stable rest (gois_binds st site.get_string)
    · exact ih site2 hmem2

theorem registerSites_fixed (sites : List Site) : ∀ {st : Store},
    (∀ site ∈ sites,
      findByString st.by_string site.inner.text = some site.inner
        ∧ site.initialized = true) →
    registerSites st sites = (st, sites) := by
  induction sites with
  | nil => intro st _; rfl
  | cons site rest ih =>
    intro st h
    obtain ⟨hfind, hinit⟩ := h site (List.mem_cons_self site rest)
    have hgois : st.get_or_insert_static site.get_string = (st, site.inner) :=
      gois_found hfind
    have hsite : site.initSite site.inner = site := by
      cases site with
      | mk i b => cases hinit; rfl
    rw [registerSites_cons, hgois,
      ih (fun s2 hs2 => h s2 (List.mem_cons_of_mem site hs2)), hsite]

/-! ### Serialized traces interning one text -/

theorem runEvs_found {s : String} {e : SymbolStr} (evs : List Ev) :
    ∀ {st : Store}, findByString st.by_string s = some e →
    (∀ r, Ev.writeStatic r ∈ evs → r.text = s) →
    runEvs st s evs = (st, evs.map fun _ => some e) := by
  induction evs with
  | nil => intro st _ _; rfl
  | cons ev rest ih =>
    intro st h hstat
    have hstat2 : ∀ r, Ev.writeStatic r ∈ rest → r.text = s :=
      fun r hr => hstat r (List.mem_cons_of_mem ev hr)
    cases ev with
    | readPhase =>
      show ((runEvs st s rest).1, Store.get st s :: (runEvs st s rest).2) = _
      rw [ih h hstat2, show Store.get st s = some e from h]
      rfl
    | writeDyn =>
      show ((runEvs (st.get_or_insert s).1 s rest).1,
        some (st.get_or_insert s).2
          :: (runEvs (st.get_or_insert s).1 s rest).2) = _
      rw [get_or_insert_found h, ih h hstat2]
      rfl
    | writeStatic r =>
      have hr : r.text = s := hstat r (List.mem_cons_self _ rest)
      show ((runEvs (st.get_or_insert_static r).1 s rest).1,
        some (st.get_or_insert_static r).2
          :: (runEvs (st.get_or_insert_static r).1 s rest).2) = _
      rw [gois_found (by rw [hr]; exact h), ih h hstat2]
      rfl

/-! ### Interning operations on a common text -/

/-- Predicate: operation `op` interns text `s`, via either
`Store::get_or_insert` (the `Symbol::new` path) or
`Store::get_or_insert_static` (the `Symbol::new_static` path). -/
def InternsText (op : Op) (s : String) : Prop :=
  op = .getOrInsert s ∨
    ∃ r : SymbolStr, r.text = s ∧ op = .getOrInsertStatic r

theorem intern_applyOp_spec {W : Nat} {st : Store} {s : String} {op : Op}
    (h : InternsText op s) :
    ∃ e, (applyOp W st op).2 = some e ∧
      findByString (applyOp W st op).1.by_string s = some e := by
  rcases h with rfl | ⟨r, hr, rfl⟩
  · exact ⟨(st.get_or_insert s).2, rfl, get_or_insert_binds st s⟩
  · exact ⟨(st.get_or_insert_static r).2, rfl, hr ▸ gois_binds st r⟩

theorem intern_applyOp_of_found {W : Nat} {st : Store} {s : String}
    {e : SymbolStr} {op : Op} (h : InternsText op s)
    (hf : findByString st.by_string s = some e) :
    applyOp W st op = (st, some e) := by
  rcases h with rfl | ⟨r, hr, rfl⟩
  · show ((st.get_or_insert s).1, some (st.get_or_insert s).2) = (st, some e)
    rw [get_or_insert_found hf]
  · show ((st.get_or_insert_static r).1, some (st.get_or_insert_static r).2)
      = (st, some e)
    rw [gois_found (by rw [hr]; exact hf)]

/-! ### The claims -/

/-- Claim C1: interning is deduplicating and idempotent.  For every string
`s`, every call that interns `s` — `Store::get_or_insert` (the `Symbol::new`
path) or `Store::get_or_insert_static` (the `Symbol::new_static` path), in
any sequential interleaving of the two paths with arbitrary further registry
operations in between — returns the same `Symbol` value as the first such
call; and, concretely, interning `"a"`, `"b"`, `"a"` from the empty store
yields handles `[h1, h2, h1]` with `h1 ≠ h2`, while looking up the never
interned `"c"` returns not-found. -/
theorem C1_intern_dedup_idempotent (W : Nat) (st : Store) (s : String)
    (op1 op2 : Op) (mid : List Op)
    (h1 : InternsText op1 s) (h2 : InternsText op2 s) :
    (applyOp W (runOps W (applyOp W st op1).1 mid).1 op2).2
        = (applyOp W st op1).2
    ∧ (runOps 64 (Store.empty 0)
        [Op.getOrInsert "a", Op.getOrInsert "b", Op.getOrInsert "a",
         Op.get "c"]).2
      = [some ⟨0, "a"⟩, some ⟨1, "b"⟩, some ⟨0, "a"⟩, none]
    ∧ (⟨0, "a"⟩ : Symbol) ≠ ⟨1, "b"⟩ := by
  refine ⟨?_, by decide, by decide⟩
  obtain ⟨e, hout, hbind⟩ := @intern_applyOp_spec W st s op1 h1
  have hmid := runOps_stable (W := W) mid hbind
  rw [intern_applyOp_of_found h2 hmid, hout]

/-- Witness for C1: the first interning of `"a"` goes through the dynamic
path, the second through the static path with an unrelated static cell, with
an interning of `"b"` in between; both return the heap-backed handle. -/
theorem C1_witness :
    InternsText (Op.getOrInsert "a") "a"
    ∧ InternsText (Op.getOrInsertStatic ⟨5, "a"⟩) "a"
    ∧ ((applyOp 64 (runOps 64
          (applyOp 64 (Store.empty 10) (Op.getOrInsert "a")).1
          [Op.getOrInsert "b"]).1 (Op.getOrInsertStatic ⟨5, "a"⟩)).2
        = (applyOp 64 (Store.empty 10) (Op.getOrInsert "a")).2) :=
  ⟨Or.inl rfl, Or.inr ⟨⟨5, "a"⟩, rfl, rfl⟩,
    (C1_intern_dedup_idempotent 64 (Store.empty 10) "a" (Op.getOrInsert "a")
      (Op.getOrInsertStatic ⟨5, "a"⟩) [Op.getOrInsert "b"] (Or.inl rfl)
      (Or.inr ⟨⟨5, "a"⟩, rfl, rfl⟩)).1⟩

/-- Claim C3: `Symbol` equality, hashing and the `Ord` between symbols are
defined purely over the handle's address (`as_ptr`): two symbols compare
equal iff their addresses are equal, equal symbols feed identical data to the
hasher, the ordering compares addresses (and hence ignores the text), and two
symbols built over independently allocated cells holding equal text are not
equal; the separate `PartialEq<str>`/`PartialOrd<str>` operators compare text
content lexicographically and ignore the address. -/
theorem C3_symbol_identity_semantics (a b x : Symbol) (a1 a2 : Nat)
    (t t1 t2 : String) (s : String) (hne : a1 ≠ a2) :
    (Symbol.beq a b = true ↔ a.as_ptr = b.as_ptr)
    ∧ (Symbol.beq a b = true → Symbol.hashFeed a = Symbol.hashFeed b)
    ∧ (Symbol.cmp a b = Symbol.cmp ⟨a.addr, t1⟩ ⟨b.addr, t2⟩)
    ∧ (Symbol.cmp a b = Ordering.eq ↔ a.as_ptr = b.as_ptr)
    ∧ (Symbol.cmp a b = Ordering.lt ↔ a.as_ptr < b.as_ptr)
    ∧ (Symbol.beq ⟨a1, t⟩ ⟨a2, t⟩ = false)
    ∧ (Symbol.beqStr ⟨a1, t⟩ t = true)
    ∧ (Symbol.cmpStr x s = Ordering.eq ↔ x.as_str = s)
    ∧ (Symbol.cmpStr ⟨a1, t⟩ s = Symbol.cmpStr ⟨a2, t⟩ s) := by
  refine ⟨?_, ?_, rfl, ?_, ?_, ?_, ?_, ?_, rfl⟩
  · simp [Symbol.beq]
  · intro h
    simp only [Symbol.beq, beq_iff_eq] at h
    simpa [Symbol.hashFeed] using h
  · exact compare_eq_iff_eq
  · exact compare_lt_iff_lt
  · simpa [Symbol.beq, Symbol.as_ptr] using hne
  · simp [Symbol.beqStr, Symbol.as_str]
  · exact compare_eq_iff_eq

/-- Witness for C3 at concrete symbols: addresses 3 and 4 with equal text. -/
theorem C3_witness :
    (3 : Nat) ≠ 4
    ∧ (Symbol.beq ⟨3, "hi"⟩ ⟨3, "yo"⟩ = true ↔
        Symbol.as_ptr ⟨3, "hi"⟩ = Symbol.as_ptr ⟨3, "yo"⟩)
    ∧ Symbol.beq ⟨3, "same"⟩ ⟨4, "same"⟩ = false :=
  ⟨by decide,
    (C3_symbol_identity_semantics ⟨3, "hi"⟩ ⟨3, "yo"⟩ ⟨0, ""⟩ 3 4 "same" "u"
      "v" "w" (by decide)).1,
    (C3_symbol_identity_semantics ⟨3, "hi"⟩ ⟨3, "yo"⟩ ⟨0, ""⟩ 3 4 "same" "u"
      "v" "w" (by decide)).2.2.2.2.2.1⟩

/-- Claim C5: `Store::get_or_insert_static` reuses the caller's storage as
the canonical copy.  If the text of the static reference `r` is not yet
registered, the returned symbol is `r` itself (address-identical to the
caller's cell), the store performs no allocation (`nextAddr` is unchanged)
and `r` is installed; if the text is already registered, the symbol backed by
the first-inserted reference is returned and the store — hence `r`'s cell
candidacy — is left untouched. -/
theorem C5_static_reuse (st : Store) (r : SymbolStr) :
    (findByString st.by_string r.text = none →
      (st.get_or_insert_static r).2 = r
      ∧ (st.get_or_insert_static r).1.nextAddr = st.nextAddr
      ∧ r ∈ (st.get_or_insert_static r).1.by_string)
    ∧ (∀ e, findByString st.by_string r.text = some e →
      st.get_or_insert_static r = (st, e)) := by
  constructor
  · intro h
    rw [gois_vacant h]
    exact ⟨rfl, rfl, List.mem_append.mpr (Or.inr (List.mem_singleton.mpr rfl))⟩
  · intro e h
    exact gois_found h

/-- Witness for C5: inserting the static cell at address 3 for the fresh text
`"b"` hands back that very cell; re-interning `"b"` through a different cell
at address 7 returns the original cell and leaves the store unchanged. -/
theorem C5_witness :
    (((Store.empty 10).get_or_insert_static ⟨3, "b"⟩).2 = (⟨3, "b"⟩ : Symbol)
      ∧ ((Store.empty 10).get_or_insert_static ⟨3, "b"⟩).1.nextAddr
          = (Store.empty 10).nextAddr
      ∧ (⟨3, "b"⟩ : Symbol)
          ∈ ((Store.empty 10).get_or_insert_static ⟨3, "b"⟩).1.by_string)
    ∧ (((Store.empty 10).get_or_insert_static ⟨3, "b"⟩).1.get_or_insert_static
          ⟨7, "b"⟩
        = (((Store.empty 10).get_or_insert_static ⟨3, "b"⟩).1, ⟨3, "b"⟩)) :=
  ⟨(C5_static_reuse (Store.empty 10) ⟨3, "b"⟩).1 (by decide),
    (C5_static_reuse ((Store.empty 10).get_or_insert_static ⟨3, "b"⟩).1
      ⟨7, "b"⟩).2 ⟨3, "b"⟩ (by decide)⟩

/-- Claim C6: the startup protocol is idempotent.  Running
`RegistryWriteGuard::register_sites` a second time on the table produced by
the first pass changes nothing: the store is exactly the store after the
first pass (in particular the entry count is unchanged) and every site still
holds the symbol resolved by the first pass. -/
theorem C6_register_sites_idempotent (st : Store) (sites : List Site) :
    registerSites (registerSites st sites).1 (registerSites st sites).2
      = registerSites st sites := by
  rw [registerSites_fixed (registerSites st sites).2
    (registerSites_resolved sites)]

/-- Claim C8: lock poisoning is recovered transparently.  `Registry::read`
and `Registry::write` apply `unwrap_or_else(PoisonError::into_inner)` to the
lock acquisition result, so whether or not the lock was poisoned by a panic
elsewhere they return the guard over the same store, never failing. -/
theorem C8_poison_recovered (poisoned : Bool) (st : Store) :
    Registry.read poisoned st = st
    ∧ Registry.write poisoned st = st
    ∧ Registry.read true st = Registry.read false st
    ∧ Registry.write true st = Registry.write false st := by
  cases poisoned <;>
    simp [Registry.read, Registry.write, lockAcquire]

/-- Claim C10: validated opaque lookup truncates its input to pointer width.
`Store::get_by_address` casts the `u64` argument to `usize` before the index
lookup, so on a target of pointer width `W` any two inputs congruent modulo
`2 ^ W` give the same result; concretely, on a 32-bit target a garbage value
equal to a registered address plus `2 ^ 32` is accepted as that symbol
instead of returning not-found. -/
theorem C10_truncating_lookup (W : Nat) (st : Store) (v1 v2 : Nat)
    (h : v1 % 2 ^ W = v2 % 2 ^ W) :
    Store.get_by_address W st v1 = Store.get_by_address W st v2
    ∧ Store.get_by_address 32 ((Store.empty 0).get_or_insert "a").1
        (0 + 2 ^ 32) = some ⟨0, "a"⟩ := by
  constructor
  · unfold Store.get_by_address
    rw [h]
  · decide

/-- Witness for C10: addresses 5 and `5 + 2 ^ 32` coincide modulo `2 ^ 32`
and are therefore indistinguishable to the 32-bit lookup. -/
theorem C10_witness :
    (5 % 2 ^ 32 = (5 + 2 ^ 32) % 2 ^ 32)
    ∧ Store.get_by_address 32 ((Store.empty 0).get_or_insert "a").1 5
        = Store.get_by_address 32 ((Store.empty 0).get_or_insert "a").1
            (5 + 2 ^ 32) :=
  ⟨by decide,
    (C10_truncating_lookup 32 ((Store.empty 0).get_or_insert "a").1 5
      (5 + 2 ^ 32) (by decide)).1⟩

/-- Claim C2: the opaque round-trip law on a 64-bit target (`u64` and the
pointer width coincide).  For every symbol `x` present in the registry,
`Symbol::try_from_ffi (Symbol::to_ffi x)` returns `some x` — the very same
address; and for any `u64` value never produced by `to_ffi` of a registered
symbol, `try_from_ffi` returns `none`. -/
theorem C2_ffi_roundtrip (E : StaticEnv) (st : Store) (x : Symbol) (v : Nat)
    (hI : Store.Inv E st) (hx : x ∈ st.by_string) (hxw : x.addr < 2 ^ 64)
    (hv : v < 2 ^ 64) (hvno : ∀ e ∈ st.by_string, Symbol.to_ffi e ≠ v) :
    Symbol.try_from_ffi 64 st (Symbol.to_ffi x) = some x
    ∧ Symbol.try_from_ffi 64 st v = none := by
  obtain ⟨hagree, _, haddr, _, _, _⟩ := hI
  constructor
  · show Store.get_by_address 64 st x.addr = some x
    unfold Store.get_by_address
    rw [Nat.mod_eq_of_lt hxw, hagree]
    exact findByPointer_map_mem haddr hx
  · show Store.get_by_address 64 st v = none
    unfold Store.get_by_address
    rw [Nat.mod_eq_of_lt hv, hagree]
    exact findByPointer_map_none (fun e he => hvno e he)

/-- Witness for C2: in the one-entry store holding `"a"` at address 0, the
address round-trips, and the never-produced value 1 is rejected. -/
theorem C2_witness :
    Store.Inv ⟨0, []⟩ ⟨[⟨0, "a"⟩], [(0, ⟨0, "a"⟩)], 1⟩
    ∧ (⟨0, "a"⟩ : Symbol) ∈ [(⟨0, "a"⟩ : Symbol)]
    ∧ (Symbol.try_from_ffi 64 ⟨[⟨0, "a"⟩], [(0, ⟨0, "a"⟩)], 1⟩
          (Symbol.to_ffi ⟨0, "a"⟩) = some ⟨0, "a"⟩
        ∧ Symbol.try_from_ffi 64 ⟨[⟨0, "a"⟩], [(0, ⟨0, "a"⟩)], 1⟩ 1 = none) :=
  ⟨by decide, by decide,
    C2_ffi_roundtrip ⟨0, []⟩ ⟨[⟨0, "a"⟩], [(0, ⟨0, "a"⟩)], 1⟩ ⟨0, "a"⟩ 1
      (by decide) (by decide) (by decide) (by decide) (by decide)⟩

/-- Claim C4: the store's two-index invariant.  Starting from the empty
store, after any sequence of `get_or_insert` / `get_or_insert_static` /
`get` / `get_by_address` operations (with static references drawn from a
well-formed static environment), the by-content and by-address indexes have
equal cardinality, no text occurs twice in the by-content index, and the
address-to-entry mapping is injective. -/
theorem C4_store_two_index_invariant (W : Nat) (E : StaticEnv) (ops : List Op)
    (hE : E.OK) (hops : ∀ op ∈ ops, OpOK E op) :
    (runOps W (Store.empty E.heapBase) ops).1.by_string.length
        = (runOps W (Store.empty E.heapBase) ops).1.by_pointer.length
    ∧ ((runOps W (Store.empty E.heapBase) ops).1.by_string.map
        Symbol.text).Nodup
    ∧ (∀ e1 ∈ (runOps W (Store.empty E.heapBase) ops).1.by_string,
        ∀ e2 ∈ (runOps W (Store.empty E.heapBase) ops).1.by_string,
        e1.addr = e2.addr → e1 = e2) := by
  obtain ⟨hagree, htext, haddr, _, _, _⟩ :=
    Inv_runOps hE (W := W) ops (Inv_empty E) hops
  refine ⟨?_, htext, ?_⟩
  · rw [hagree, List.length_map]
  · intro e1 h1 e2 h2 heq
    exact List.inj_on_of_nodup_map haddr h1 h2 heq

/-- Witness for C4: one static environment, a mixed operation sequence with a
repeated text across the two interning paths. -/
theorem C4_witness :
    StaticEnv.OK ⟨10, [⟨3, "x"⟩]⟩
    ∧ (∀ op ∈ [Op.getOrInsert "a", Op.getOrInsertStatic ⟨3, "x"⟩,
        Op.getOrInsert "x", Op.get "a", Op.getByAddress 3],
        OpOK ⟨10, [⟨3, "x"⟩]⟩ op)
    ∧ ((runOps 64 (Store.empty 10)
          [Op.getOrInsert "a", Op.getOrInsertStatic ⟨3, "x"⟩,
           Op.getOrInsert "x", Op.get "a", Op.getByAddress 3]).1.by_string.length
        = (runOps 64 (Store.empty 10)
          [Op.getOrInsert "a", Op.getOrInsertStatic ⟨3, "x"⟩,
           Op.getOrInsert "x", Op.get "a",
           Op.getByAddress 3]).1.by_pointer.length
      ∧ ((runOps 64 (Store.empty 10)
          [Op.getOrInsert "a", Op.getOrInsertStatic ⟨3, "x"⟩,
           Op.getOrInsert "x", Op.get "a", Op.getByAddress 3]).1.by_string.map
            Symbol.text).Nodup
      ∧ (∀ e1 ∈ (runOps 64 (Store.empty 10)
          [Op.getOrInsert "a", Op.getOrInsertStatic ⟨3, "x"⟩,
           Op.getOrInsert "x", Op.get "a", Op.getByAddress 3]).1.by_string,
          ∀ e2 ∈ (runOps 64 (Store.empty 10)
          [Op.getOrInsert "a", Op.getOrInsertStatic ⟨3, "x"⟩,
           Op.getOrInsert "x", Op.get "a", Op.getByAddress 3]).1.by_string,
          e1.addr = e2.addr → e1 = e2)) :=
  ⟨by decide, by decide,
    C4_store_two_index_invariant 64 ⟨10, [⟨3, "x"⟩]⟩
      [Op.getOrInsert "a", Op.getOrInsertStatic ⟨3, "x"⟩,
       Op.getOrInsert "x", Op.get "a", Op.getByAddress 3]
      (by decide) (by decide)⟩

/-- Claim C7: `Registry::get_or_insert` is optimistic read-then-write with a
re-check.  When the read-lock lookup hits, the stored symbol is returned and
the store is untouched (no write lock taken); otherwise, whatever admissible
operations other threads commit between the read lock's release and the write
lock's acquisition, the re-checking `Store::get_or_insert` under the write
lock leaves at most one stored entry per distinct text, and the returned
symbol is a registered entry for the requested text. -/
theorem C7_optimistic_read_recheck (W : Nat) (E : StaticEnv) (st : Store)
    (ops : List Op) (s : String) (hE : E.OK) (hI : Store.Inv E st)
    (hops : ∀ op ∈ ops, OpOK E op) :
    (∀ e, Store.get st s = some e →
      Registry.get_or_insert_with (fun st0 => (runOps W st0 ops).1) st s
        = (st, e))
    ∧ ((Registry.get_or_insert_with (fun st0 => (runOps W st0 ops).1) st
          s).1.by_string.map Symbol.text).Nodup
    ∧ (Registry.get_or_insert_with (fun st0 => (runOps W st0 ops).1) st s).2
        ∈ (Registry.get_or_insert_with (fun st0 => (runOps W st0 ops).1) st
            s).1.by_string
    ∧ (Registry.get_or_insert_with (fun st0 => (runOps W st0 ops).1) st
        s).2.text = s := by
  refine ⟨?_, ?_⟩
  · intro e he
    unfold Registry.get_or_insert_with
    rw [show Store.get st s = some e from he]
  · cases h : Store.get st s with
    | some e =>
      have hgw : Registry.get_or_insert_with
          (fun st0 => (runOps W st0 ops).1) st s = (st, e) := by
        unfold Registry.get_or_insert_with
        rw [show Store.get st s = some e from h]
      rw [hgw]
      refine ⟨hI.2.1, List.mem_of_find?_eq_some h, ?_⟩
      simpa using List.find?_some h
    | none =>
      have hgw : Registry.get_or_insert_with
          (fun st0 => (runOps W st0 ops).1) st s
          = Store.get_or_insert (runOps W st ops).1 s := by
        unfold Registry.get_or_insert_with
        rw [show Store.get st s = none from h]
      rw [hgw]
      have hI2 := Inv_runOps hE (W := W) ops hI hops
      have hI3 := Inv_get_or_insert hI2 s
      exact ⟨hI3.2.1, get_or_insert_mem _ s, get_or_insert_text _ s⟩

/-- Witness for C7: the reader misses, and between the locks another thread
interns the very same text; the re-check still yields a duplicate-free store
and a registered symbol for it. -/
theorem C7_witness :
    StaticEnv.OK ⟨10, []⟩
    ∧ Store.Inv ⟨10, []⟩ (Store.empty 10)
    ∧ (∀ op ∈ [Op.getOrInsert "q"], OpOK ⟨10, []⟩ op)
    ∧ ((∀ e, Store.get (Store.empty 10) "q" = some e →
        Registry.get_or_insert_with
          (fun st0 => (runOps 64 st0 [Op.getOrInsert "q"]).1)
          (Store.empty 10) "q" = (Store.empty 10, e))
      ∧ ((Registry.get_or_insert_with
          (fun st0 => (runOps 64 st0 [Op.getOrInsert "q"]).1)
          (Store.empty 10) "q").1.by_string.map Symbol.text).Nodup
      ∧ (Registry.get_or_insert_with
          (fun st0 => (runOps 64 st0 [Op.getOrInsert "q"]).1)
          (Store.empty 10) "q").2
          ∈ (Registry.get_or_insert_with
            (fun st0 => (runOps 64 st0 [Op.getOrInsert "q"]).1)
            (Store.empty 10) "q").1.by_string
      ∧ (Registry.get_or_insert_with
          (fun st0 => (runOps 64 st0 [Op.getOrInsert "q"]).1)
          (Store.empty 10) "q").2.text = "q") :=
  ⟨by decide, by decide, by decide,
    C7_optimistic_read_recheck 64 ⟨10, []⟩ (Store.empty 10)
      [Op.getOrInsert "q"] "q" (by decide) (by decide) (by decide)⟩

/-- Claim C9: concurrent insertion convergence.  The registry lock serializes
the read and write phases of `Registry::get_or_insert` /
`get_or_insert_static`, so a run of N threads all interning text `s` is an
interleaving of such phases.  For every interleaving that completes at least
one write phase, there is a single symbol `e` for `s` such that every phase
that observes a symbol observes exactly `e`, and afterwards the registry
holds exactly one entry for `s`. -/
theorem C9_concurrent_convergence (st : Store) (s : String) (evs : List Ev)
    (h0 : ∀ e ∈ st.by_string, e.text ≠ s)
    (hstat : ∀ r, Ev.writeStatic r ∈ evs → r.text = s)
    (hw : ∃ ev ∈ evs, ev ≠ Ev.readPhase) :
    ∃ e : Symbol, e.text = s
      ∧ (∀ o ∈ (runEvs st s evs).2, o ≠ none → o = some e)
      ∧ ((runEvs st s evs).1.by_string.filter
          fun x => x.text == s).length = 1 := by
  induction evs generalizing st with
  | nil =>
    obtain ⟨ev, hmem, _⟩ := hw
    cases hmem
  | cons ev rest ih =>
    have hfind : findByString st.by_string s = none :=
      List.find?_eq_none.mpr (by intro e he; simp [h0 e he])
    have hfilter : st.by_string.filter (fun x => x.text == s) = [] :=
      List.filter_eq_nil_iff.mpr (by intro e he; simp [h0 e he])
    have hstat2 : ∀ r, Ev.writeStatic r ∈ rest → r.text = s :=
      fun r hr => hstat r (List.mem_cons_of_mem ev hr)
    cases ev with
    | readPhase =>
      have hw2 : ∃ ev ∈ rest, ev ≠ Ev.readPhase := by
        obtain ⟨ev2, hmem, hne⟩ := hw
        rcases List.mem_cons.mp hmem with rfl | h2
        · exact absurd rfl hne
        · exact ⟨ev2, h2, hne⟩
      obtain ⟨e, hes, houts, hcount⟩ := ih st h0 hstat2 hw2
      refine ⟨e, hes, ?_, hcount⟩
      intro o ho hno
      rcases List.mem_cons.mp ho with rfl | ho2
      · exact absurd (show Store.get st s = none from hfind) hno
      · exact houts o ho2 hno
    | writeDyn =>
      have hbind :
          findByString (st.by_string ++ [⟨st.nextAddr, s⟩]) s
            = some ⟨st.nextAddr, s⟩ := by
        rw [findByString_append_none _ hfind]
        exact findByString_singleton_self ⟨st.nextAddr, s⟩
      refine ⟨⟨st.nextAddr, s⟩, rfl, ?_, ?_⟩ <;>
        rw [show runEvs st s (Ev.writeDyn :: rest)
            = ((runEvs (st.get_or_insert s).1 s rest).1,
               some (st.get_or_insert s).2
                 :: (runEvs (st.get_or_insert s).1 s rest).2) from rfl,
          get_or_insert_vacant hfind, runEvs_found rest hbind hstat2]
      · intro o ho _
        rcases List.mem_cons.mp ho with rfl | ho2
        · rfl
        · obtain ⟨a, _, hae⟩ := List.mem_map.mp ho2
          exact hae.symm
      · rw [List.filter_append, hfilter]
        simp
    | writeStatic r =>
      have hr : r.text = s := hstat r (List.mem_cons_self _ rest)
      have hfindr : findByString st.by_string r.text = none := by
        rw [hr]; exact hfind
      have hbind : findByString (st.by_string ++ [r]) s = some r := by
        rw [findByString_append_none _ hfind]
        have := findByString_singleton_self r
        rw [hr] at this
        exact this
      refine ⟨r, hr, ?_, ?_⟩ <;>
        rw [show runEvs st s (Ev.writeStatic r :: rest)
            = ((runEvs (st.get_or_insert_static r).1 s rest).1,
               some (st.get_or_insert_static r).2
                 :: (runEvs (st.get_or_insert_static r).1 s rest).2) from rfl,
          gois_vacant hfindr, runEvs_found rest hbind hstat2]
      · intro o ho _
        rcases List.mem_cons.mp ho with rfl | ho2
        · rfl
        · obtain ⟨a, _, hae⟩ := List.mem_map.mp ho2
          exact hae.symm
      · rw [List.filter_append, hfilter]
        simp [hr]

/-- Witness for C9: two threads race on `"t"`: one read phase that misses,
one dynamic write, one static write through the cell at address 5; all
observed symbols coincide and exactly one entry remains. -/
theorem C9_witness :
    (∀ e ∈ (Store.empty 10).by_string, e.text ≠ "t")
    ∧ (∀ r, Ev.writeStatic r
        ∈ [Ev.readPhase, Ev.writeDyn, Ev.writeStatic ⟨5, "t"⟩]
        → r.text = "t")
    ∧ (∃ ev ∈ [Ev.readPhase, Ev.writeDyn, Ev.writeStatic ⟨5, "t"⟩],
        ev ≠ Ev.readPhase)
    ∧ (∃ e : Symbol, e.text = "t"
      ∧ (∀ o ∈ (runEvs (Store.empty 10) "t"
          [Ev.readPhase, Ev.writeDyn, Ev.writeStatic ⟨5, "t"⟩]).2,
          o ≠ none → o = some e)
      ∧ ((runEvs (Store.empty 10) "t"
          [Ev.readPhase, Ev.writeDyn, Ev.writeStatic ⟨5, "t"⟩]).1.by_string.filter
          fun x => x.text == "t").length = 1) :=
  ⟨(by intro e he; cases he),
    (by
      intro r hr
      simp only [List.mem_cons, reduceCtorEq, List.not_mem_nil, or_false,
        false_or, Ev.writeStatic.injEq] at hr
      rw [hr]),
    ⟨Ev.writeDyn, by simp, by simp⟩,
    C9_concurrent_convergence (Store.empty 10) "t"
      [Ev.readPhase, Ev.writeDyn, Ev.writeStatic ⟨5, "t"⟩]
      (by intro e he; cases he)
      (by
        intro r hr
        simp only [List.mem_cons, reduceCtorEq, List.not_mem_nil, or_false,
          false_or, Ev.writeStatic.injEq] at hr
        rw [hr])
      ⟨Ev.writeDyn, by simp, by simp⟩⟩

end Stringleton
